import Mathlib

/-!
# Verification of the Manuscript History & Progress Tracking Engine

Shallow embedding of `packages/core/src/git/manuscriptGit.ts`
(class `ManuscriptGitService`) from the writer-cli repository, together with
proofs settling the frozen claims about it.

Conventions of the embedding:

* JavaScript strings are Lean `String`s (lists of characters); the JS regular
  expression used by `extractWordCountFromMessage` is embedded as an explicit
  deterministic matcher (`matchAt`, `findCount`) that is faithful to the
  backtracking behaviour of `/\((\d+)\s+(?:total\s+)?words?\)/` (leftmost
  match, greedy quantifiers).
* The underlying version-control engine (the `simple-git` collaborator) is
  embedded as a pure state machine `GitState` with standard git semantics for
  add / commit / tag / checkout; operations that git rejects (nothing to
  commit, unknown pathspec, existing tag, unknown ref, existing branch)
  return `Except.error`.
* File-system reads are embedded as lookups in the working-file association
  list of the state; `readFile` failing corresponds to a missing key.
* Ambient data (today's date, the git log returned for a query) is passed as
  an explicit argument where the source reads it from the environment.
-/

deriving instance DecidableEq for Except

namespace Writer

/-- JS `\s` (whitespace) character class, by code point:
tab, lf, vt, ff, cr, space, nbsp, and the Unicode space separators
recognised by ECMAScript. -/
def isWs (c : Char) : Bool :=
  c.toNat == 32 || (9 ≤ c.toNat && c.toNat ≤ 13) || c.toNat == 160 ||
  c.toNat == 5760 || (8192 ≤ c.toNat && c.toNat ≤ 8202) ||
  c.toNat == 8232 || c.toNat == 8233 || c.toNat == 8239 ||
  c.toNat == 8287 || c.toNat == 12288 || c.toNat == 65279

/-- Decimal digits of a natural number, fuel-indexed so that the definition is
structurally recursive (and hence evaluates inside the kernel).  Mirrors the
JS number-to-string conversion used by template literals. -/
def natToDigitsF : Nat → Nat → List Char
  | 0, _ => []
  | f + 1, n =>
    if n < 10 then [Nat.digitChar n]
    else natToDigitsF f (n / 10) ++ [Nat.digitChar (n % 10)]

/-- Decimal digit list of `n` (`n + 1` units of fuel always suffice). -/
def natToDigits (n : Nat) : List Char := natToDigitsF (n + 1) n

/-- Decimal string of a natural number, as produced by a JS template literal. -/
def natRepr (n : Nat) : String := ⟨natToDigits n⟩

/-- Decimal string of an integer, as produced by a JS template literal. -/
def intRepr (i : Int) : String :=
  if i < 0 then "-" ++ natRepr i.natAbs else natRepr i.natAbs

/-- Value of a list of decimal digits (JS `parseInt(match[1], 10)` on the
digits captured by `(\d+)`). -/
def digitsVal (ds : List Char) : Nat :=
  ds.foldl (fun a c => a * 10 + (c.toNat - 48)) 0

/-- Consume the literal `lit` from the front of `l`; `none` on mismatch. -/
def dropLit : List Char → List Char → Option (List Char)
  | [], l => some l
  | _ :: _, [] => none
  | c :: cs, x :: xs => if x = c then dropLit cs xs else none

/-- Is the head character a closing parenthesis? -/
def headIsParen : List Char → Bool
  | [] => false
  | y :: _ => y == ')'

/-- After the literal `word` the regex accepts `)` or `s)`:
this is `words?\)` with its greedy backtracking. -/
def parenAfter : List Char → Bool
  | [] => false
  | x :: xs => x == ')' || (x == 's' && headIsParen xs)

/-- `words?\)` starting at `l`. -/
def wordsParen (l : List Char) : Bool :=
  match dropLit ['w', 'o', 'r', 'd'] l with
  | some r => parenAfter r
  | none => false

/-- The `total\s+words?\)` reading of the optional group. -/
def totalBranch (l : List Char) : Bool :=
  match dropLit ['t', 'o', 't', 'a', 'l'] l with
  | some r => !(r.takeWhile isWs).isEmpty && wordsParen (r.dropWhile isWs)
  | none => false

/-- `(?:total\s+)?words?\)` starting at `l`: first try the optional
`total\s+` group, then (backtracking) without it. -/
def matchTail (l : List Char) : Bool :=
  totalBranch l || wordsParen l

/-- `(\d+)\s+(?:total\s+)?words?\)` after the opening parenthesis; returns
the captured number.  `\d+` and `\s+` are taken maximal-munch, which agrees
with the regex since the token following each never starts with a digit
resp. a whitespace character. -/
def matchBody (rest : List Char) : Option Nat :=
  if (rest.takeWhile Char.isDigit).isEmpty then none
  else if ((rest.dropWhile Char.isDigit).takeWhile isWs).isEmpty then none
  else if matchTail ((rest.dropWhile Char.isDigit).dropWhile isWs) then
    some (digitsVal (rest.takeWhile Char.isDigit))
  else none

/-- Try to match `\((\d+)\s+(?:total\s+)?words?\)` anchored at the head of
`l`. -/
def matchAt : List Char → Option Nat
  | [] => none
  | c :: rest => if c = '(' then matchBody rest else none

/-- Leftmost match of the word-count pattern in `l` (JS `String.match` with a
non-global regex scans positions left to right). -/
def findCount : List Char → Option Nat
  | [] => none
  | c :: rest =>
    match matchAt (c :: rest) with
    | some n => some n
    | none => findCount rest

/-- `ManuscriptGitService.extractWordCountFromMessage`:
`message.match(/\((\d+)\s+(?:total\s+)?words?\)/)` and `parseInt` on the
captured digits; `undefined` (here `none`) when there is no match. -/
def extractWordCountFromMessage (message : String) : Option Nat :=
  findCount message.data

/-- Chapter-level encoding: the suffix of
`` `Update ${chapterPath} (${wordCount} words)` `` — appending
`" (<n> words)"` to a free-text message. -/
def encodeWordCount (message : String) (wordCount : Nat) : String :=
  message ++ " (" ++ natRepr wordCount ++ " words)"

/-- Whole-project encoding used by `commitAll`:
`` `${message} (${totalWordCount} total words)` ``. -/
def encodeTotalWordCount (message : String) (wordCount : Nat) : String :=
  message ++ " (" ++ natRepr wordCount ++ " total words)"

/-- Prepend a character to the first token of a split result. -/
def consHead (c : Char) : List (List Char) → List (List Char)
  | [] => [[c]]
  | t :: ts => (c :: t) :: ts

/-- JS `content.split(/\s+/)`: split on maximal whitespace runs, keeping the
(possibly empty) fragments between them.  A whitespace character that is
followed by more whitespace belongs to the same separator run; a whitespace
character followed by a non-whitespace character (or the end of the string)
closes a fragment. -/
def splitRuns : List Char → List (List Char)
  | [] => [[]]
  | c :: rest =>
    if isWs c then
      match rest with
      | [] => [] :: splitRuns rest
      | d :: _ => if isWs d then splitRuns rest else [] :: splitRuns rest
    else consHead c (splitRuns rest)

/-- The word counting of `ManuscriptGitService.getWordCount`:
`content.split(/\s+/).filter(word => word.length > 0).length`. -/
def getWordCount (content : String) : Nat :=
  ((splitRuns content.data).filter (fun w => decide (w.length > 0))).length

/-- Spec-side word counter (§4.1 of the spec, "split on runs of whitespace;
count non-empty resulting tokens"): count the maximal non-whitespace runs,
scanning with a flag recording whether we are inside a word. -/
def cwAux : Bool → List Char → Nat
  | _, [] => 0
  | inWord, c :: rest =>
    if isWs c then cwAux false rest
    else (if inWord then 0 else 1) + cwAux true rest

/-- Spec-side word counter on strings. -/
def countWordsSpec (s : String) : Nat := cwAux false s.data

/-! ## The underlying version-control collaborator

`simple-git` calls are embedded as a pure state machine with standard git
semantics.  Errors raised by git (and rethrown by `simple-git` as rejected
promises) are `Except.error` values. -/

/-- Errors surfaced by the underlying git engine. -/
inductive GitErr where
  /-- `git commit` with nothing staged: "nothing to commit". -/
  | nothingToCommit
  /-- `git add <path>` where the pathspec matches no file. -/
  | pathspecNotFound
  /-- `git tag <name>` where the tag already exists. -/
  | tagExists
  /-- `git checkout <ref>` where no branch or tag has that name. -/
  | refNotFound
  /-- `git checkout -b <name>` where the branch already exists. -/
  | branchExists
deriving DecidableEq

/-- One commit object (author/timestamp metadata is irrelevant to every
claim and omitted). -/
structure Commit where
  id : Nat
  message : String
deriving DecidableEq

/-- The record produced by `getHistory` (interface `GitCommitInfo`; the
`author`/`date` fields are pass-through metadata and omitted). -/
structure GitCommitInfo where
  hash : Nat
  message : String
  wordCount : Option Nat
deriving DecidableEq

/-- State of one project repository plus its working tree.

* `commits`: the log reachable from `HEAD`, newest first.
* `branches` / `tags`: ref name to commit id.
* `headBranch`: the checked-out branch, or `none` when `HEAD` is detached
  (then `headDetached` is the checked-out commit).
* `workFiles`: the files of the working tree with their current content
  (a missing key is a path `readFile` fails on).
* `dirty`: the paths reported by `git status` (modified / added / deleted /
  untracked), i.e. files with uncommitted changes.
* `staged`: the paths currently staged in the index.
* `nextId`: fresh commit id supply. -/
structure GitState where
  commits : List Commit
  branches : List (String × Nat)
  tags : List (String × Nat)
  headBranch : Option String
  headDetached : Nat
  workFiles : List (String × String)
  dirty : List String
  staged : List String
  nextId : Nat
deriving DecidableEq

/-- The commit `HEAD` resolves to. -/
def headCommit (st : GitState) : Nat :=
  match st.headBranch with
  | some b => (st.branches.lookup b).getD 0
  | none => st.headDetached

/-- `git add <path>`: succeeds when the pathspec matches something (an
existing file, or a deleted-but-tracked path still listed by status), and
stages the path when it has changes; fails on an unmatched pathspec. -/
def gitAdd (st : GitState) (path : String) : Except GitErr GitState :=
  if (st.workFiles.lookup path).isSome || st.dirty.contains path then
    Except.ok { st with
      staged := if st.dirty.contains path then path :: st.staged else st.staged }
  else Except.error GitErr.pathspecNotFound

/-- `git commit -m <message>`: fails with "nothing to commit" when the index
is empty; otherwise creates a commit from the staged paths, advances the
checked-out branch (or the detached `HEAD`) and clears the index. -/
def gitCommit (st : GitState) (message : String) :
    Except GitErr (GitState × Nat) :=
  if st.staged.isEmpty then Except.error GitErr.nothingToCommit
  else
    let id := st.nextId
    Except.ok ({ st with
      commits := { id := id, message := message } :: st.commits
      nextId := id + 1
      branches :=
        match st.headBranch with
        | some b => st.branches.map (fun bc => if bc.1 == b then (bc.1, id) else bc)
        | none => st.branches
      headDetached :=
        match st.headBranch with
        | some _ => st.headDetached
        | none => id
      dirty := st.dirty.filter (fun p => !st.staged.contains p)
      staged := [] }, id)

/-- `git checkout <ref>`: a branch name switches to the branch; otherwise a
tag name detaches `HEAD` at the tag's commit; otherwise the ref is unknown. -/
def checkout (st : GitState) (ref : String) : Except GitErr GitState :=
  match st.branches.lookup ref with
  | some _ => Except.ok { st with headBranch := some ref }
  | none =>
    match st.tags.lookup ref with
    | some cid => Except.ok { st with headBranch := none, headDetached := cid }
    | none => Except.error GitErr.refNotFound

/-- `git checkout -b <name>` (simple-git `checkoutLocalBranch`): creates a
new branch at the current `HEAD` and switches to it; fails if the branch
already exists. -/
def checkoutLocalBranch (st : GitState) (name : String) :
    Except GitErr GitState :=
  if (st.branches.lookup name).isSome then Except.error GitErr.branchExists
  else Except.ok { st with
    branches := (name, headCommit st) :: st.branches
    headBranch := some name }

/-! ## `ManuscriptGitService` operations -/

/-- JS `message || fallback` on an optional string parameter: `undefined`
and the empty string are falsy and select the fallback. -/
def orElseStr (message : Option String) (fallback : String) : String :=
  match message with
  | some m => if m = "" then fallback else m
  | none => fallback

/-- `getWordCount(filePath)` of the service: read the file and count words;
any read failure is caught and reported as `0`. -/
def getWordCountFile (st : GitState) (filePath : String) : Nat :=
  match st.workFiles.lookup filePath with
  | some content => getWordCount content
  | none => 0

/-- Whether a path has one of the trackable writing-file extensions
(`.md`, `.txt`, `.fountain`). -/
def isWritingFile (file : String) : Bool :=
  ".md".data.isSuffixOf file.data || ".txt".data.isSuffixOf file.data ||
  ".fountain".data.isSuffixOf file.data

/-- `getTotalWordCount()`: loop over the files reported by `git status`
(`status.files`), accumulating `getWordCount` over those with a writing
extension. -/
def getTotalWordCount (st : GitState) : Nat :=
  st.dirty.foldl
    (fun total file =>
      if isWritingFile file then total + getWordCountFile st file else total) 0

/-- `commitChapter(chapterPath, message?)`: count the chapter's words, build
the default message `Update <path> (<n> words)`, stage the path, and commit
`message || defaultMessage`; returns the new commit id. -/
def commitChapter (st : GitState) (chapterPath : String)
    (message : Option String) : Except GitErr (GitState × Nat) := do
  let wordCount := getWordCountFile st chapterPath
  let defaultMessage := encodeWordCount ("Update " ++ chapterPath) wordCount
  let st1 ← gitAdd st chapterPath
  gitCommit st1 (orElseStr message defaultMessage)

/-- `commitAll(message)`: compute the project-wide word count, append
`" (<n> total words)"`, stage everything (`git add .`) and commit.  (The
source also queries `git status` into an unused local.) -/
def commitAll (st : GitState) (message : String) :
    Except GitErr (GitState × Nat) :=
  let totalWordCount := getTotalWordCount st
  let enhancedMessage := encodeTotalWordCount message totalWordCount
  gitCommit { st with staged := st.dirty } enhancedMessage

/-- `createDraftTag(tagName, message?)`: the source computes a word count and
a default message but passes neither on — it only runs `git tag <tagName>`. -/
def createDraftTag (st : GitState) (tagName : String) :
    Except GitErr GitState :=
  if (st.tags.lookup tagName).isSome then Except.error GitErr.tagExists
  else Except.ok { st with tags := (tagName, headCommit st) :: st.tags }

/-- `backup(message?)`: derive the tag name `backup-<today>` from the date
part of the current ISO timestamp, commit everything, tag, and return the
tag name.  `today` stands for `new Date().toISOString().split('T')[0]`. -/
def backup (st : GitState) (today : String) (message : Option String) :
    Except GitErr (GitState × String) := do
  let backupTag := "backup-" ++ today
  let (st1, _) ← commitAll st (orElseStr message ("Backup: " ++ today))
  let st2 ← createDraftTag st1 backupTag
  Except.ok (st2, backupTag)

/-- `restoreFromBackup(tag)`: `git checkout <tag>` then
`git checkout -b restore-<tag>`. -/
def restoreFromBackup (st : GitState) (tag : String) :
    Except GitErr GitState := do
  let st1 ← checkout st tag
  checkoutLocalBranch st1 ("restore-" ++ tag)

/-- `getHistory(limit)`: the `limit` most recent commits, each with the word
count decoded from its message (absent when the message carries none). -/
def getHistory (st : GitState) (limit : Nat) : List GitCommitInfo :=
  (st.commits.take limit).map fun c =>
    { hash := c.id
      message := c.message
      wordCount := extractWordCountFromMessage c.message }

/-! ## Word-count history and progress rendering -/

/-- One entry of `getWordCountHistory` (and input of the renderer). -/
structure WCEntry where
  date : String
  wordCount : Nat
  change : Int
deriving DecidableEq

/-- JS `String.split` with a single-character separator. -/
def splitOnC (sep : Char) : List Char → List (List Char)
  | [] => [[]]
  | c :: rest =>
    match splitOnC sep rest with
    | [] => [[]]
    | t :: ts => if c = sep then [] :: t :: ts else (c :: t) :: ts

/-- Message field of one `%h|%ai|%s` log line (JS array destructuring of
`split('|')`; the log format guarantees three fields). -/
def lineMsg (line : String) : String := ⟨(splitOnC '|' line.data).getD 2 []⟩

/-- Date field of one log line, truncated at the first space
(`date.split(' ')[0]`). -/
def lineDate (line : String) : String :=
  ⟨(splitOnC ' ' ((splitOnC '|' line.data).getD 1 [])).headD []⟩

/-- Word count of one log line as the loop computes it:
`await this.extractWordCountFromMessage(message) || 0` (a missing — or
zero — count becomes `0`). -/
def wcOfLine (line : String) : Nat :=
  (extractWordCountFromMessage (lineMsg line)).getD 0

/-- The loop body of `getWordCountHistory`: walk the (already reversed,
oldest-first) log lines threading `previousCount` (initially `0`); a message
with no decodable count contributes `wordCount = 0`. -/
def historyLoop : Nat → List String → List WCEntry
  | _, [] => []
  | prev, line :: rest =>
    { date := lineDate line
      wordCount := wcOfLine line
      change := (wcOfLine line : Int) - (prev : Int) }
      :: historyLoop (wcOfLine line) rest

/-- `getWordCountHistory(days)`: the source fetches the log lines of the
trailing window (newest first, `%h|%ai|%s` format), reverses them and runs
the delta loop.  The fetched lines are the explicit argument here. -/
def getWordCountHistory (logLines : List String) : List WCEntry :=
  historyLoop 0 logLines.reverse

/-- `Math.round` on the exact rational `num / den` (round half away from
zero is round half up for the non-negative values that occur here). -/
def natRound (num den : Nat) : Nat := (2 * num + den) / (2 * den)

/-- Bar length of one chart row: `Math.round(entry.wordCount * (50 / maxWords))`.
When `maxWords = 0` the JS computation is `Math.round(0 * Infinity) = NaN`
and `'█'.repeat(NaN)` coerces `NaN` to `0`, so the bar is empty. -/
def barLen (wordCount maxWords : Nat) : Nat :=
  if maxWords = 0 then 0 else natRound (wordCount * 50) maxWords

/-- Signed delta as printed: `change > 0 ? `+${change}` : `${change}``. -/
def changeStr (change : Int) : String :=
  if change > 0 then "+" ++ intRepr change else intRepr change

/-- One chart row: `${entry.date} ${bar} ${entry.wordCount} words (${change})\n`. -/
def progressLine (maxWords : Nat) (e : WCEntry) : String :=
  e.date ++ " " ++ ⟨List.replicate (barLen e.wordCount maxWords) '█'⟩ ++ " " ++
  natRepr e.wordCount ++ " words (" ++ changeStr e.change ++ ")\n"

/-- `visualizeProgress()` after its history has been fetched: the empty
history short-circuits to a fixed message; otherwise a header, a 60-char
rule, and one bar row per entry, scaled to the maximum word count. -/
def visualizeProgress (history : List WCEntry) : String :=
  if history.isEmpty then "No writing history found."
  else
    history.foldl
      (fun output e =>
        output ++ progressLine ((history.map (fun h => h.wordCount)).foldl max 0) e)
      ("Writing Progress (Last 30 Days)\n" ++
        (⟨List.replicate 60 '='⟩ : String) ++ "\n")

/-- The all-zero-history rendering the spec requires: identical to
`visualizeProgress` except that every bar is the empty string
(zero-length bars). -/
def zeroBarLine (e : WCEntry) : String :=
  e.date ++ " " ++ "" ++ " " ++
  natRepr e.wordCount ++ " words (" ++ changeStr e.change ++ ")\n"

/-- Spec-side renderer for an all-zero history: same header and rows, with
zero-length bars. -/
def specZeroRender (history : List WCEntry) : String :=
  if history.isEmpty then "No writing history found."
  else
    history.foldl (fun output e => output ++ zeroBarLine e)
      ("Writing Progress (Last 30 Days)\n" ++
        (⟨List.replicate 60 '='⟩ : String) ++ "\n")


/-! ## Scenario states and observation helpers -/

/-- Number of non-empty tokens in a split result (the
`.filter(word => word.length > 0).length` part of `getWordCount`). -/
def fLen (ts : List (List Char)) : Nat :=
  (ts.filter (fun w => decide (w.length > 0))).length

/-- Default entry for indexed access. -/
def dE : WCEntry := { date := "", wordCount := 0, change := 0 }

/-- The quantity the claim describes: the sum of the word counts of every
trackable writing file of the working tree, whether or not it has
uncommitted changes (modelled from the spec's words, for comparison). -/
def allTrackableTotal (st : GitState) : Nat :=
  ((st.workFiles.filter (fun f => isWritingFile f.1)).map
    (fun f => getWordCount f.2)).sum

/-- Default commit for indexed access. -/
def dC : Commit := { id := 0, message := "" }

/-- Default history record for indexed access. -/
def dInfo : GitCommitInfo := { hash := 0, message := "", wordCount := none }

/-- A one-chapter project directly after `initialize`: `chapters/01.md`
holds the five-word sentence of the spec scenario and has uncommitted
changes. -/
def chapterState : GitState := {
  commits := [{ id := 0, message := "Initial commit: Writer project setup" }]
  branches := [("main", 0)]
  tags := []
  headBranch := some "main"
  headDetached := 0
  workFiles := [("chapters/01.md", "The quick brown fox jumps.")]
  dirty := ["chapters/01.md"]
  staged := []
  nextId := 1 }

/-- The same project with a clean working tree. -/
def cleanState : GitState := { chapterState with dirty := [] }

/-- A project with one clean tracked writing file (`a.md`, five words) and
one changed writing file (`b.md`, three words). -/
def mixedState : GitState := {
  commits := [{ id := 0, message := "Initial commit: Writer project setup" }]
  branches := [("main", 0)]
  tags := []
  headBranch := some "main"
  headDetached := 0
  workFiles := [("a.md", "alpha beta gamma delta epsilon"),
    ("b.md", "one two three")]
  dirty := ["b.md"]
  staged := []
  nextId := 1 }

/-- A clean project carrying one snapshot tag, ready to restore. -/
def restoreState : GitState :=
  { chapterState with tags := [("backup-2026-10-11", 0)], dirty := [] }

/-- The state `restoreFromBackup` produces from `restoreState`. -/
def restoredState : GitState := { restoreState with
  branches := [("restore-backup-2026-10-11", 0), ("main", 0)]
  headBranch := some "restore-backup-2026-10-11" }

/-- The state `backup` produces from `chapterState` on 2026-10-11. -/
def afterBackup : GitState := {
  commits := [{ id := 1, message := "Backup: 2026-10-11 (5 total words)" },
    { id := 0, message := "Initial commit: Writer project setup" }]
  branches := [("main", 1)]
  tags := [("backup-2026-10-11", 1)]
  headBranch := some "main"
  headDetached := 0
  workFiles := [("chapters/01.md", "The quick brown fox jumps.")]
  dirty := []
  staged := []
  nextId := 2 }

/-- The message stored by a (successful) chapter commit. -/
def storedMessage (r : Except GitErr (GitState × Nat)) : Option String :=
  match r with
  | Except.ok (st, _) => some ((st.commits.headD dC).message)
  | Except.error _ => none

/-- The decoded word count `getHistory(1)[0].wordCount` after a
(successful) commit. -/
def historyHeadWordCount (r : Except GitErr (GitState × Nat)) :
    Option (Option Nat) :=
  match r with
  | Except.ok (st, _) => some (((getHistory st 1).headD dInfo).wordCount)
  | Except.error _ => none

/-- The commit message stored by a (successful) `backup`. -/
def backupMessage (r : Except GitErr (GitState × String)) : Option String :=
  match r with
  | Except.ok (st, _) => some ((st.commits.headD dC).message)
  | Except.error _ => none

/-! ## Generic list lemmas for the matcher -/

theorem dropWhile_append_pos {α} (p : α → Bool) (l v : List α)
    (h : l.dropWhile p ≠ []) :
    (l ++ v).dropWhile p = l.dropWhile p ++ v := by
  induction l with
  | nil => simp [List.dropWhile] at h
  | cons c rest ih =>
    cases hpc : p c with
    | true =>
      rw [List.dropWhile_cons, hpc] at h
      rw [List.cons_append, List.dropWhile_cons, hpc, List.dropWhile_cons, hpc]
      simp only [if_pos] at h ⊢
      exact ih h
    | false =>
      rw [List.cons_append, List.dropWhile_cons, hpc, List.dropWhile_cons, hpc]
      simp

theorem takeWhile_append_pos {α} (p : α → Bool) (l v : List α)
    (h : l.dropWhile p ≠ []) :
    (l ++ v).takeWhile p = l.takeWhile p := by
  induction l with
  | nil => simp [List.dropWhile] at h
  | cons c rest ih =>
    cases hpc : p c with
    | true =>
      rw [List.dropWhile_cons, hpc] at h
      simp only [if_pos] at h
      rw [List.cons_append, List.takeWhile_cons, hpc, List.takeWhile_cons, hpc]
      simp only [if_pos]
      rw [ih h]
    | false =>
      rw [List.cons_append, List.takeWhile_cons, hpc, List.takeWhile_cons, hpc]
      simp

theorem dropWhile_append_nil {α} (p : α → Bool) (l v : List α)
    (h : l.dropWhile p = []) :
    (l ++ v).dropWhile p = v.dropWhile p := by
  induction l with
  | nil => simp
  | cons c rest ih =>
    rw [List.dropWhile_cons] at h
    cases hpc : p c with
    | true =>
      rw [hpc] at h
      simp only [if_pos] at h
      rw [List.cons_append, List.dropWhile_cons, hpc]
      simp only [if_pos]
      exact ih h
    | false =>
      rw [hpc] at h
      simp at h

theorem takeWhile_append_nil {α} (p : α → Bool) (l v : List α)
    (h : l.dropWhile p = []) :
    (l ++ v).takeWhile p = l ++ v.takeWhile p := by
  induction l with
  | nil => simp
  | cons c rest ih =>
    rw [List.dropWhile_cons] at h
    cases hpc : p c with
    | true =>
      rw [hpc] at h
      simp only [if_pos] at h
      rw [List.cons_append, List.takeWhile_cons, hpc]
      simp only [if_pos]
      rw [ih h, List.cons_append]
    | false =>
      rw [hpc] at h
      simp at h

theorem takeWhile_eq_self_of_drop_nil {α} (p : α → Bool) (l : List α)
    (h : l.dropWhile p = []) : l.takeWhile p = l := by
  have := List.takeWhile_append_dropWhile (p := p) (l := l)
  rw [h, List.append_nil] at this
  exact this

theorem dropWhile_eq_nil_of_all {α} (p : α → Bool) (l : List α)
    (h : ∀ c ∈ l, p c = true) : l.dropWhile p = [] := by
  induction l with
  | nil => simp
  | cons c rest ih =>
    rw [List.dropWhile_cons, if_pos (h c (List.mem_cons_self c rest))]
    exact ih fun d hd => h d (List.mem_cons_of_mem c hd)

/-! ## Straddle lemmas

Appending a suffix that starts with `" ("` to a message in which the pattern
has no match cannot create a match straddling the boundary: every partial
match is killed by the `'('` right after the boundary space. -/

theorem dropLit_some_append (lit : List Char) :
    ∀ (l v r : List Char), dropLit lit l = some r →
      dropLit lit (l ++ v) = some (r ++ v) := by
  induction lit with
  | nil =>
    intro l v r h
    simp only [dropLit, Option.some.injEq] at h
    simp [dropLit, h]
  | cons c cs ih =>
    intro l v r h
    cases l with
    | nil => simp [dropLit] at h
    | cons x xs =>
      simp only [dropLit] at h ⊢
      by_cases hx : x = c
      · rw [if_pos hx] at h
        rw [if_pos hx]
        exact ih xs v r h
      · rw [if_neg hx] at h
        exact absurd h (by simp)

theorem dropLit_none_sp (lit : List Char) (hsp : ' ' ∉ lit) :
    ∀ (l u : List Char), dropLit lit l = none →
      dropLit lit (l ++ ' ' :: u) = none := by
  induction lit with
  | nil => intro l u h; simp [dropLit] at h
  | cons c cs ih =>
    intro l u h
    cases l with
    | nil =>
      rw [List.nil_append]
      simp only [dropLit]
      rw [if_neg (fun hc => hsp (List.mem_cons.mpr (Or.inl hc)))]
    | cons x xs =>
      simp only [dropLit] at h ⊢
      by_cases hx : x = c
      · rw [if_pos hx] at h
        rw [if_pos hx]
        exact ih (fun hm => hsp (List.mem_cons.mpr (Or.inr hm))) xs u h
      · rw [if_neg hx]

theorem parenAfter_append_sp (r u : List Char) (h : parenAfter r = false) :
    parenAfter (r ++ ' ' :: u) = false := by
  cases r with
  | nil =>
    rw [List.nil_append]
    show ((' ' == ')') || ((' ' == 's') && headIsParen u)) = false
    rfl
  | cons x xs =>
    rw [List.cons_append]
    show ((x == ')') || ((x == 's') && headIsParen (xs ++ ' ' :: u))) = false
    have h' : ((x == ')') || ((x == 's') && headIsParen xs)) = false := h
    cases hx1 : (x == ')') with
    | true => rw [hx1] at h'; simp at h'
    | false =>
      rw [hx1] at h'
      simp only [Bool.false_or] at h' ⊢
      cases hx2 : (x == 's') with
      | false => simp
      | true =>
        rw [hx2] at h'
        simp only [Bool.true_and] at h' ⊢
        cases xs with
        | nil => rw [List.nil_append]; rfl
        | cons y ys =>
          rw [List.cons_append]
          show (y == ')') = false
          exact h'

theorem wordsParen_append_sp (l u : List Char) (h : wordsParen l = false) :
    wordsParen (l ++ ' ' :: u) = false := by
  unfold wordsParen at h ⊢
  cases hdl : dropLit ['w', 'o', 'r', 'd'] l with
  | none =>
    rw [dropLit_none_sp _ (by decide) _ _ hdl]
  | some r =>
    rw [dropLit_some_append _ _ _ _ hdl]
    rw [hdl] at h
    exact parenAfter_append_sp r u h

theorem wordsParen_paren (u : List Char) : wordsParen ('(' :: u) = false := by
  unfold wordsParen
  rw [show dropLit ['w', 'o', 'r', 'd'] ('(' :: u) = none from by
    simp [dropLit]]

theorem dropWhile_sp_paren (u : List Char) :
    (' ' :: '(' :: u).dropWhile isWs = '(' :: u := by
  rw [List.dropWhile_cons, if_pos (show isWs ' ' = true from rfl),
    List.dropWhile_cons, if_neg (show ¬ isWs '(' = true from by decide)]

theorem takeWhile_sp_paren (u : List Char) :
    (' ' :: '(' :: u).takeWhile isWs = [' '] := by
  rw [List.takeWhile_cons, if_pos (show isWs ' ' = true from rfl),
    List.takeWhile_cons, if_neg (show ¬ isWs '(' = true from by decide)]

theorem totalBranch_paren (u : List Char) : totalBranch ('(' :: u) = false := by
  unfold totalBranch
  rw [show dropLit ['t', 'o', 't', 'a', 'l'] ('(' :: u) = none from by
    simp [dropLit]]

theorem matchTail_paren (u : List Char) : matchTail ('(' :: u) = false := by
  unfold matchTail
  rw [totalBranch_paren, wordsParen_paren]
  rfl

theorem totalBranch_append_sp (l u : List Char) (h : totalBranch l = false) :
    totalBranch (l ++ ' ' :: '(' :: u) = false := by
  unfold totalBranch at h ⊢
  cases hdl : dropLit ['t', 'o', 't', 'a', 'l'] l with
  | none =>
    rw [dropLit_none_sp _ (by decide) _ _ hdl]
  | some r =>
    rw [dropLit_some_append _ _ _ _ hdl]
    rw [hdl] at h
    show (!((r ++ ' ' :: '(' :: u).takeWhile isWs).isEmpty &&
      wordsParen ((r ++ ' ' :: '(' :: u).dropWhile isWs)) = false
    have h' : (!(r.takeWhile isWs).isEmpty && wordsParen (r.dropWhile isWs))
        = false := h
    cases hr : r.dropWhile isWs with
    | nil =>
      rw [dropWhile_append_nil isWs r _ hr, dropWhile_sp_paren,
        wordsParen_paren]
      simp
    | cons x xs =>
      rw [takeWhile_append_pos isWs r _ (by simp [hr]),
        dropWhile_append_pos isWs r _ (by simp [hr]), hr]
      rw [hr] at h'
      cases hE : (r.takeWhile isWs).isEmpty with
      | true => simp
      | false =>
        rw [hE] at h'
        simp only [Bool.not_false, Bool.true_and] at h'
        simp only [Bool.not_false, Bool.true_and]
        exact wordsParen_append_sp _ _ h'

theorem matchTail_append_sp (l u : List Char) (h : matchTail l = false) :
    matchTail (l ++ ' ' :: '(' :: u) = false := by
  unfold matchTail at h ⊢
  simp only [Bool.or_eq_false_iff] at h ⊢
  exact ⟨totalBranch_append_sp l u h.1, wordsParen_append_sp l _ h.2⟩

theorem matchBody_append_sp (rest u : List Char) (h : matchBody rest = none) :
    matchBody (rest ++ ' ' :: '(' :: u) = none := by
  unfold matchBody at h ⊢
  cases hr1 : rest.dropWhile Char.isDigit with
  | nil =>
    -- all of `rest` is digits; the boundary space ends the digit run
    have hds : (rest ++ ' ' :: '(' :: u).takeWhile Char.isDigit = rest := by
      rw [takeWhile_append_nil _ _ _ hr1, List.takeWhile_cons,
        if_neg (show ¬ Char.isDigit ' ' = true from by decide), List.append_nil]
    have hdr : (rest ++ ' ' :: '(' :: u).dropWhile Char.isDigit =
        ' ' :: '(' :: u := by
      rw [dropWhile_append_nil _ _ _ hr1, List.dropWhile_cons,
        if_neg (show ¬ Char.isDigit ' ' = true from by decide)]
    rw [hds, hdr]
    by_cases hE : rest.isEmpty
    · rw [if_pos hE]
    · rw [if_neg hE,
        dropWhile_sp_paren, takeWhile_sp_paren,
        if_neg (show ¬ ([' '].isEmpty = true) from by decide),
        if_neg (by rw [matchTail_paren]; exact Bool.false_ne_true)]
  | cons x xs =>
    have hds : (rest ++ ' ' :: '(' :: u).takeWhile Char.isDigit =
        rest.takeWhile Char.isDigit :=
      takeWhile_append_pos _ _ _ (by simp [hr1])
    have hdr : (rest ++ ' ' :: '(' :: u).dropWhile Char.isDigit =
        (x :: xs) ++ ' ' :: '(' :: u := by
      rw [dropWhile_append_pos _ _ _ (by simp [hr1]), hr1]
    rw [hds, hdr]
    rw [hr1] at h
    by_cases hE : (rest.takeWhile Char.isDigit).isEmpty
    · rw [if_pos hE]
    · rw [if_neg hE] at h
      rw [if_neg hE]
      cases hr2 : (x :: xs).dropWhile isWs with
      | nil =>
        have hd2 : ((x :: xs) ++ ' ' :: '(' :: u).dropWhile isWs =
            '(' :: u := by
          rw [dropWhile_append_nil isWs _ _ hr2, dropWhile_sp_paren]
        have ht2 : ((x :: xs) ++ ' ' :: '(' :: u).takeWhile isWs =
            (x :: xs) ++ [' '] := by
          rw [takeWhile_append_nil isWs _ _ hr2, takeWhile_sp_paren]
        rw [hd2, ht2, if_neg (by simp), matchTail_paren,
          if_neg Bool.false_ne_true]
      | cons y ys =>
        have hd2 : ((x :: xs) ++ ' ' :: '(' :: u).dropWhile isWs =
            (y :: ys) ++ ' ' :: '(' :: u := by
          rw [dropWhile_append_pos isWs _ _ (by simp [hr2]), hr2]
        have ht2 : ((x :: xs) ++ ' ' :: '(' :: u).takeWhile isWs =
            (x :: xs).takeWhile isWs :=
          takeWhile_append_pos isWs _ _ (by simp [hr2])
        rw [ht2, hd2]
        by_cases hE2 : ((x :: xs).takeWhile isWs).isEmpty
        · rw [if_pos hE2]
        · rw [if_neg hE2] at h
          rw [if_neg hE2]
          rw [hr2] at h
          cases hmt : matchTail (y :: ys) with
          | true => rw [if_pos hmt] at h; exact absurd h (by simp)
          | false =>
            have hmt2 := matchTail_append_sp (y :: ys) u hmt
            rw [hmt2]
            simp

theorem matchAt_append_sp (l u : List Char) (h : matchAt l = none) :
    matchAt (l ++ ' ' :: '(' :: u) = none := by
  cases l with
  | nil =>
    rw [List.nil_append]
    show (if ' ' = '(' then matchBody ('(' :: u) else none) = none
    rw [if_neg (by decide)]
  | cons c rest =>
    show (if c = '(' then matchBody (rest ++ ' ' :: '(' :: u) else none) = none
    have h' : (if c = '(' then matchBody rest else none) = none := h
    by_cases hc : c = '('
    · rw [if_pos hc] at h'
      rw [if_pos hc]
      exact matchBody_append_sp rest u h'
    · rw [if_neg hc]

theorem findCount_append_sp (l u : List Char) (h : findCount l = none) :
    findCount (l ++ ' ' :: '(' :: u) = findCount (' ' :: '(' :: u) := by
  induction l with
  | nil => rw [List.nil_append]
  | cons c rest ih =>
    rw [List.cons_append]
    unfold findCount at h ⊢
    cases hm : matchAt (c :: rest) with
    | some n => rw [hm] at h; exact absurd h (by simp)
    | none =>
      rw [hm] at h
      have hm2 := matchAt_append_sp (c :: rest) u hm
      rw [List.cons_append] at hm2
      rw [hm2]
      exact ih h

/-! ## Decimal digit lemmas -/

theorem digitChar_isDigit (d : Nat) (h : d < 10) :
    (Nat.digitChar d).isDigit = true := by
  interval_cases d <;> decide

theorem digitChar_toNat (d : Nat) (h : d < 10) :
    (Nat.digitChar d).toNat = 48 + d := by
  interval_cases d <;> decide

theorem digitsVal_append_one (xs : List Char) (c : Char) :
    digitsVal (xs ++ [c]) = digitsVal xs * 10 + (c.toNat - 48) := by
  unfold digitsVal
  rw [List.foldl_append]
  rfl

theorem natToDigitsF_spec (f : Nat) :
    ∀ n : Nat, 1 ≤ f → n < 10 ^ f →
      natToDigitsF f n ≠ [] ∧ (∀ c ∈ natToDigitsF f n, c.isDigit = true) ∧
      digitsVal (natToDigitsF f n) = n := by
  induction f with
  | zero => intro n h; omega
  | succ f ih =>
    intro n _ hn
    have hunf : natToDigitsF (f + 1) n =
        if n < 10 then [Nat.digitChar n]
        else natToDigitsF f (n / 10) ++ [Nat.digitChar (n % 10)] := rfl
    by_cases h10 : n < 10
    · rw [hunf, if_pos h10]
      refine ⟨by simp, ?_, ?_⟩
      · intro c hc
        rw [List.mem_singleton] at hc
        rw [hc]
        exact digitChar_isDigit n h10
      · show digitsVal ([] ++ [Nat.digitChar n]) = n
        rw [digitsVal_append_one, digitChar_toNat n h10]
        show 0 * 10 + (48 + n - 48) = n
        omega
    · rw [hunf, if_neg h10]
      have hf : 1 ≤ f := by
        rcases Nat.eq_zero_or_pos f with hf0 | hf0
        · rw [hf0] at hn
          norm_num at hn
          omega
        · exact hf0
      have hdiv : n / 10 < 10 ^ f := by
        rw [Nat.div_lt_iff_lt_mul (by norm_num)]
        calc n < 10 ^ (f + 1) := hn
          _ = 10 ^ f * 10 := by rw [pow_succ]
      obtain ⟨h1, h2, h3⟩ := ih (n / 10) hf hdiv
      refine ⟨by simp, ?_, ?_⟩
      · intro c hc
        rw [List.mem_append] at hc
        rcases hc with hc | hc
        · exact h2 c hc
        · rw [List.mem_singleton] at hc
          rw [hc]
          exact digitChar_isDigit _ (Nat.mod_lt n (by norm_num))
      · rw [digitsVal_append_one, h3,
          digitChar_toNat _ (Nat.mod_lt n (by norm_num))]
        omega

theorem natToDigits_ne_nil (n : Nat) : natToDigits n ≠ [] :=
  (natToDigitsF_spec (n + 1) n (by omega)
    (lt_of_lt_of_le (Nat.lt_pow_self (by norm_num) n)
      (Nat.pow_le_pow_right (by norm_num) (by omega)))).1

theorem natToDigits_isDigit (n : Nat) :
    ∀ c ∈ natToDigits n, c.isDigit = true :=
  (natToDigitsF_spec (n + 1) n (by omega)
    (lt_of_lt_of_le (Nat.lt_pow_self (by norm_num) n)
      (Nat.pow_le_pow_right (by norm_num) (by omega)))).2.1

theorem digitsVal_natToDigits (n : Nat) : digitsVal (natToDigits n) = n :=
  (natToDigitsF_spec (n + 1) n (by omega)
    (lt_of_lt_of_le (Nat.lt_pow_self (by norm_num) n)
      (Nat.pow_le_pow_right (by norm_num) (by omega)))).2.2

/-! ## Decoding an encoded suffix -/

theorem matchBody_encode (N : Nat) (tail : List Char)
    (h1 : matchTail tail = true) (h2 : tail.dropWhile isWs = tail) :
    matchBody (natToDigits N ++ ' ' :: tail) = some N := by
  have hdig : (natToDigits N).dropWhile Char.isDigit = [] :=
    dropWhile_eq_nil_of_all _ _ (natToDigits_isDigit N)
  have hds : (natToDigits N ++ ' ' :: tail).takeWhile Char.isDigit =
      natToDigits N := by
    rw [takeWhile_append_nil _ _ _ hdig, List.takeWhile_cons,
      if_neg (show ¬ Char.isDigit ' ' = true from by decide), List.append_nil]
  have hdr : (natToDigits N ++ ' ' :: tail).dropWhile Char.isDigit =
      ' ' :: tail := by
    rw [dropWhile_append_nil _ _ _ hdig, List.dropWhile_cons,
      if_neg (show ¬ Char.isDigit ' ' = true from by decide)]
  unfold matchBody
  rw [hds, hdr]
  rw [if_neg (by
    intro hc
    exact natToDigits_ne_nil N (List.isEmpty_iff.mp hc))]
  have htw : (' ' :: tail).takeWhile isWs = ' ' :: tail.takeWhile isWs := by
    rw [List.takeWhile_cons, if_pos (show isWs ' ' = true from rfl)]
  have hdw : (' ' :: tail).dropWhile isWs = tail := by
    rw [List.dropWhile_cons, if_pos (show isWs ' ' = true from rfl), h2]
  rw [htw, hdw]
  rw [if_neg (by simp)]
  rw [if_pos h1, digitsVal_natToDigits]

theorem matchAt_cons (c : Char) (rest : List Char) :
    matchAt (c :: rest) = if c = '(' then matchBody rest else none := rfl

theorem findCount_cons (c : Char) (rest : List Char) :
    findCount (c :: rest) =
      match matchAt (c :: rest) with
      | some n => some n
      | none => findCount rest := rfl

theorem findCount_encode (N : Nat) (tail : List Char)
    (h1 : matchTail tail = true) (h2 : tail.dropWhile isWs = tail) :
    findCount (' ' :: '(' :: (natToDigits N ++ ' ' :: tail)) = some N := by
  have h0 : matchAt (' ' :: '(' :: (natToDigits N ++ ' ' :: tail)) = none := by
    rw [matchAt_cons, if_neg (by decide)]
  have hA : matchAt ('(' :: (natToDigits N ++ ' ' :: tail)) = some N := by
    rw [matchAt_cons, if_pos rfl]
    exact matchBody_encode N tail h1 h2
  rw [findCount_cons, h0, findCount_cons, hA]

/-! ## Word-count lemmas: the split-filter-count pipeline counts the
maximal non-whitespace runs -/


theorem fLen_nil_cons (ts : List (List Char)) : fLen ([] :: ts) = fLen ts := by
  simp [fLen]

theorem fLen_cons_cons (c : Char) (t : List Char) (ts : List (List Char)) :
    fLen ((c :: t) :: ts) = 1 + fLen ts := by
  simp [fLen, List.filter_cons]
  omega


theorem consHead_cons (c : Char) (t : List Char) (ts : List (List Char)) :
    consHead c (t :: ts) = (c :: t) :: ts := rfl

theorem splitRuns_single (c : Char) :
    splitRuns [c] = if isWs c then [[], []] else [[c]] := rfl

theorem splitRuns_cons_cons (c d : Char) (t : List Char) :
    splitRuns (c :: d :: t) =
      if isWs c then
        (if isWs d then splitRuns (d :: t) else [] :: splitRuns (d :: t))
      else consHead c (splitRuns (d :: t)) := rfl

theorem cwAux_cons (b : Bool) (c : Char) (rest : List Char) :
    cwAux b (c :: rest) =
      if isWs c then cwAux false rest
      else (if b then 0 else 1) + cwAux true rest := rfl

theorem splitRuns_ne_nil : ∀ l : List Char, splitRuns l ≠ [] := by
  intro l
  induction l with
  | nil => simp [splitRuns]
  | cons c rest ih =>
    cases rest with
    | nil =>
      rw [splitRuns_single]
      by_cases hc : isWs c
      · rw [if_pos hc]; simp
      · rw [if_neg hc]; simp
    | cons d t =>
      rw [splitRuns_cons_cons]
      by_cases hc : isWs c
      · rw [if_pos hc]
        by_cases hd : isWs d
        · rw [if_pos hd]; exact ih
        · rw [if_neg hd]; simp
      · rw [if_neg hc]
        obtain ⟨t2, ts, hs⟩ : ∃ t2 ts, splitRuns (d :: t) = t2 :: ts := by
          cases hs : splitRuns (d :: t) with
          | nil => exact absurd hs ih
          | cons t2 ts => exact ⟨t2, ts, rfl⟩
        rw [hs, consHead_cons]
        simp

theorem splitRuns_ws_head : ∀ (l : List Char) (d : Char) (t : List Char),
    l = d :: t → isWs d = true → ∃ ts, splitRuns l = [] :: ts := by
  intro l
  induction l with
  | nil => intro d t h; exact absurd h (by simp)
  | cons c rest ih =>
    intro d t h hd
    have hc : isWs c = true := by
      have : c = d := (List.cons.injEq c rest d t ▸ h).1
      rw [this]; exact hd
    cases rest with
    | nil =>
      rw [splitRuns_single, if_pos hc]
      exact ⟨[[]], rfl⟩
    | cons e t2 =>
      rw [splitRuns_cons_cons, if_pos hc]
      by_cases he : isWs e
      · rw [if_pos he]
        exact ih e t2 rfl he
      · rw [if_neg he]
        exact ⟨splitRuns (e :: t2), rfl⟩

theorem cwAux_splitRuns : ∀ l : List Char,
    cwAux false l = fLen (splitRuns l) ∧
    cwAux true l = fLen (splitRuns l).tail := by
  intro l
  induction l with
  | nil => exact ⟨rfl, rfl⟩
  | cons c rest ih =>
    obtain ⟨ihF, ihT⟩ := ih
    by_cases hc : isWs c
    · have e1 : cwAux false (c :: rest) = cwAux false rest := by
        rw [cwAux_cons, if_pos hc]
      have e2 : cwAux true (c :: rest) = cwAux false rest := by
        rw [cwAux_cons, if_pos hc]
      cases rest with
      | nil =>
        rw [e1, e2, splitRuns_single, if_pos hc]
        exact ⟨rfl, rfl⟩
      | cons e t2 =>
        rw [e1, e2, splitRuns_cons_cons, if_pos hc]
        by_cases he : isWs e
        · rw [if_pos he]
          obtain ⟨ts, hts⟩ := splitRuns_ws_head (e :: t2) e t2 rfl he
          refine ⟨ihF, ?_⟩
          rw [ihF, hts, fLen_nil_cons]
          rfl
        · rw [if_neg he]
          refine ⟨by rw [ihF, fLen_nil_cons], ?_⟩
          rw [ihF]
          rfl
    · have e1 : cwAux false (c :: rest) = 1 + cwAux true rest := by
        rw [cwAux_cons, if_neg hc]
        norm_num
      have e2 : cwAux true (c :: rest) = cwAux true rest := by
        rw [cwAux_cons, if_neg hc]
        norm_num
      obtain ⟨t, ts, hs⟩ : ∃ t ts, splitRuns rest = t :: ts := by
        cases hs : splitRuns rest with
        | nil => exact absurd hs (splitRuns_ne_nil rest)
        | cons t ts => exact ⟨t, ts, rfl⟩
      have hsp : splitRuns (c :: rest) = (c :: t) :: ts := by
        cases rest with
        | nil =>
          rw [splitRuns_single, if_neg hc]
          have : t = ([] : List Char) ∧ ts = ([] : List (List Char)) := by
            have h2 : ([[]] : List (List Char)) = t :: ts := hs
            exact ⟨(List.cons.injEq [] [] t ts ▸ h2).1.symm ▸ rfl,
              (List.cons.injEq [] [] t ts ▸ h2).2.symm ▸ rfl⟩
          rw [this.1, this.2]
        | cons e t2 =>
          rw [splitRuns_cons_cons, if_neg hc, hs, consHead_cons]
      rw [e1, e2, hsp, ihT, hs]
      constructor
      · rw [fLen_cons_cons]
        simp [List.tail_cons]
      · rfl

/-! ## History-loop lemmas -/


theorem historyLoop_length : ∀ (l : List String) (prev : Nat),
    (historyLoop prev l).length = l.length := by
  intro l
  induction l with
  | nil => intro prev; rfl
  | cons line rest ih =>
    intro prev
    show (historyLoop prev (line :: rest)).length = rest.length + 1
    rw [show historyLoop prev (line :: rest) =
      { date := lineDate line
        wordCount := wcOfLine line
        change := (wcOfLine line : Int) - (prev : Int) }
        :: historyLoop (wcOfLine line) rest from rfl]
    rw [List.length_cons, ih (wcOfLine line)]

theorem historyLoop_getD : ∀ (l : List String) (prev : Nat) (i : Nat),
    i < l.length →
    (historyLoop prev l).getD i dE =
      { date := lineDate (l.getD i "")
        wordCount := wcOfLine (l.getD i "")
        change := (wcOfLine (l.getD i "") : Int) -
          (if i = 0 then (prev : Int) else (wcOfLine (l.getD (i - 1) "") : Int)) } := by
  intro l
  induction l with
  | nil => intro prev i hi; exact absurd hi (by simp)
  | cons line rest ih =>
    intro prev i hi
    rw [show historyLoop prev (line :: rest) =
      { date := lineDate line
        wordCount := wcOfLine line
        change := (wcOfLine line : Int) - (prev : Int) }
        :: historyLoop (wcOfLine line) rest from rfl]
    cases i with
    | zero => rfl
    | succ j =>
      have hj : j < rest.length := by
        rw [List.length_cons] at hi
        omega
      rw [List.getD_cons_succ, List.getD_cons_succ, ih (wcOfLine line) j hj]
      cases j with
      | zero => rfl
      | succ k =>
        rw [if_neg (by omega), if_neg (by omega)]
        rw [show (k + 1 + 1 - 1 : Nat) = k + 1 from by omega,
          show (k + 1 - 1 : Nat) = k from by omega, List.getD_cons_succ]

/-! ## Renderer lemmas -/

theorem foldl_append_factor (f : WCEntry → String) :
    ∀ (l : List WCEntry) (s : String),
      l.foldl (fun out e => out ++ f e) s =
        s ++ l.foldl (fun out e => out ++ f e) "" := by
  intro l
  induction l with
  | nil => intro s; simp
  | cons e rest ih =>
    intro s
    rw [List.foldl_cons, List.foldl_cons, ih (s ++ f e), ih ("" ++ f e)]
    rw [String.append_assoc]
    congr 1

theorem foldl_max_zero : ∀ (l : List Nat), (∀ x ∈ l, x = 0) →
    l.foldl max 0 = 0 := by
  intro l
  induction l with
  | nil => intro _; rfl
  | cons x rest ih =>
    intro h
    rw [List.foldl_cons, h x (by simp), Nat.max_self]
    exact ih fun y hy => h y (by simp [hy])

theorem progressLine_maxZero (e : WCEntry) :
    progressLine 0 e = zeroBarLine e := by
  unfold progressLine zeroBarLine barLen
  rw [if_pos rfl]
  rfl

theorem string_ne_empty_of_data_cons (s : String) (c : Char) (t : List Char)
    (h : s.data = c :: t) : s ≠ "" := by
  intro he
  rw [he] at h
  exact absurd h (by simp [String.data])

/-! ## Git-operation lemmas -/

theorem foldl_total_factor (st : GitState) :
    ∀ (l : List String) (a : Nat),
      l.foldl (fun total file =>
        if isWritingFile file then total + getWordCountFile st file else total) a =
      a + (l.map (fun f =>
        if isWritingFile f then getWordCountFile st f else 0)).sum := by
  intro l
  induction l with
  | nil => intro a; simp
  | cons f rest ih =>
    intro a
    rw [List.foldl_cons, List.map_cons, List.sum_cons]
    by_cases hf : isWritingFile f
    · rw [if_pos hf, if_pos hf, ih]
      omega
    · rw [if_neg hf, if_neg hf, ih]
      omega

/-- `getTotalWordCount` as a sum over the status-reported files. -/
theorem getTotalWordCount_eq_sum (st : GitState) :
    getTotalWordCount st =
      (st.dirty.map (fun f =>
        if isWritingFile f then getWordCountFile st f else 0)).sum := by
  unfold getTotalWordCount
  rw [foldl_total_factor]
  omega


theorem backup_clean (st : GitState) (today : String) (message : Option String)
    (hclean : st.dirty = []) :
    backup st today message = Except.error GitErr.nothingToCommit := by
  simp only [backup, commitAll, gitCommit, hclean]
  rfl

theorem backup_tag_of_ok (st : GitState) (today : String)
    (message : Option String) (st' : GitState) (tag : String)
    (h : backup st today message = Except.ok (st', tag)) :
    tag = "backup-" ++ today := by
  unfold backup at h
  cases hc : commitAll st (orElseStr message ("Backup: " ++ today)) with
  | error e =>
    rw [hc] at h
    exact absurd h (by simp [Bind.bind, Except.bind])
  | ok p =>
    obtain ⟨st1, cid⟩ := p
    rw [hc] at h
    simp only [Bind.bind, Except.bind] at h
    cases hd : createDraftTag st1 ("backup-" ++ today) with
    | error e =>
      rw [hd] at h
      exact absurd h (by simp)
    | ok st2 =>
      rw [hd] at h
      simp only [Except.ok.injEq, Prod.mk.injEq] at h
      exact h.2.symm

theorem restore_missing_ref (st : GitState) (tag : String)
    (h1 : st.branches.lookup tag = none) (h2 : st.tags.lookup tag = none) :
    restoreFromBackup st tag = Except.error GitErr.refNotFound := by
  unfold restoreFromBackup checkout
  rw [h1, h2]
  rfl

theorem lookup_cons {β : Type} (a k : String) (v : β) (es : List (String × β)) :
    List.lookup a ((k, v) :: es) =
      match a == k with
      | true => some v
      | false => List.lookup a es := rfl

theorem restore_ok_spec (st : GitState) (tag b : String) (cid tc : Nat)
    (st' : GitState)
    (_hhead : st.headBranch = some b)
    (hb : st.branches.lookup b = some cid)
    (htag : st.tags.lookup tag = some tc)
    (hnoshadow : st.branches.lookup tag = none)
    (hok : restoreFromBackup st tag = Except.ok st') :
    st'.branches.lookup b = some cid ∧
    st'.headBranch = some ("restore-" ++ tag) ∧
    st'.headBranch ≠ some b ∧
    st'.branches.lookup ("restore-" ++ tag) = some tc := by
  have hbody : restoreFromBackup st tag =
      checkoutLocalBranch { st with headBranch := none, headDetached := tc }
        ("restore-" ++ tag) := by
    unfold restoreFromBackup checkout
    rw [hnoshadow, htag]
    rfl
  rw [hbody] at hok
  unfold checkoutLocalBranch at hok
  have hb1 : ({ st with headBranch := none, headDetached := tc } :
      GitState).branches = st.branches := rfl
  rw [hb1] at hok
  cases hex : st.branches.lookup ("restore-" ++ tag) with
  | some c2 =>
    rw [hex, if_pos (by simp)] at hok
    exact absurd hok (by simp)
  | none =>
    rw [hex, if_neg (by simp)] at hok
    simp only [Except.ok.injEq] at hok
    subst hok
    have hne : b ≠ "restore-" ++ tag := by
      intro heq
      rw [heq, hex] at hb
      exact absurd hb (by simp)
    have hbeq : (b == ("restore-" ++ tag)) = false := by
      simp only [beq_eq_false_iff_ne, ne_eq]
      exact hne
    refine ⟨?_, rfl, ?_, ?_⟩
    · show List.lookup b (("restore-" ++ tag, tc) :: st.branches) = some cid
      rw [lookup_cons, hbeq]
      exact hb
    · show (some ("restore-" ++ tag) : Option String) ≠ some b
      intro h
      apply hne
      injection h with h2
      exact h2.symm
    · show List.lookup ("restore-" ++ tag)
        (("restore-" ++ tag, tc) :: st.branches) = some tc
      rw [lookup_cons,
        show (("restore-" ++ tag) == ("restore-" ++ tag)) = true from by simp]

theorem visualizeProgress_allZero (h : List WCEntry)
    (hz : ∀ e ∈ h, e.wordCount = 0) :
    visualizeProgress h = specZeroRender h := by
  unfold visualizeProgress specZeroRender
  cases hh : h.isEmpty with
  | true => rw [if_pos rfl, if_pos rfl]
  | false =>
    rw [if_neg (by simp), if_neg (by simp)]
    have hmax : (h.map (fun x => x.wordCount)).foldl max 0 = 0 := by
      apply foldl_max_zero
      intro x hx
      obtain ⟨e, he, hex⟩ := List.mem_map.mp hx
      rw [← hex]
      exact hz e he
    rw [hmax]
    rw [show (fun (output : String) (e : WCEntry) =>
        output ++ progressLine 0 e) =
      (fun (output : String) (e : WCEntry) => output ++ zeroBarLine e) from by
      funext output e
      rw [progressLine_maxZero]]

theorem visualizeProgress_ne_empty (h : List WCEntry) :
    visualizeProgress h ≠ "" := by
  unfold visualizeProgress
  cases hh : h.isEmpty with
  | true =>
    rw [if_pos rfl]
    decide
  | false =>
    rw [if_neg (by simp)]
    rw [foldl_append_factor]
    intro he
    have hlen := congrArg String.length he
    rw [String.length_append, String.length_append, String.length_append]
      at hlen
    rw [show ("Writing Progress (Last 30 Days)\n" : String).length = 32
      from rfl] at hlen
    rw [show ("" : String).length = 0 from rfl] at hlen
    omega

/-! ## Data-level shape of the encoded messages -/

theorem encodeWordCount_data (S : String) (N : Nat) :
    (encodeWordCount S N).data =
      S.data ++ ' ' :: '(' :: (natToDigits N ++
        ' ' :: ['w', 'o', 'r', 'd', 's', ')']) := by
  unfold encodeWordCount
  rw [String.data_append, String.data_append, String.data_append]
  rw [show (" (" : String).data = [' ', '('] from rfl]
  rw [show (" words)" : String).data = [' ', 'w', 'o', 'r', 'd', 's', ')']
    from rfl]
  rw [show (natRepr N).data = natToDigits N from rfl]
  simp [List.append_assoc]

theorem encodeTotalWordCount_data (S : String) (N : Nat) :
    (encodeTotalWordCount S N).data =
      S.data ++ ' ' :: '(' :: (natToDigits N ++
        ' ' :: ['t', 'o', 't', 'a', 'l', ' ', 'w', 'o', 'r', 'd', 's', ')']) := by
  unfold encodeTotalWordCount
  rw [String.data_append, String.data_append, String.data_append]
  rw [show (" (" : String).data = [' ', '('] from rfl]
  rw [show (" total words)" : String).data =
    [' ', 't', 'o', 't', 'a', 'l', ' ', 'w', 'o', 'r', 'd', 's', ')'] from rfl]
  rw [show (natRepr N).data = natToDigits N from rfl]
  simp [List.append_assoc]













/-- String extensionality via the character list. -/
theorem string_eq_of_data (a b : String) (h : a.data = b.data) : a = b := by
  cases a
  cases b
  exact congrArg String.mk h

theorem encodeWordCount_zero (m : String) :
    encodeWordCount m 0 = m ++ " (0 words)" := by
  apply string_eq_of_data
  rw [encodeWordCount_data, String.data_append]
  rw [show (" (0 words)" : String).data =
    [' ', '(', '0', ' ', 'w', 'o', 'r', 'd', 's', ')'] from rfl]
  rw [show natToDigits 0 = ['0'] from rfl]
  simp

/-! ## Claims -/

/-- C1 (counterexample): committing `chapters/01.md` ("The quick brown fox
jumps.", 5 words) via `commitChapter` with the explicit message
"First line" does NOT store `"First line (5 words)"` — the explicit message
is committed verbatim — and `getHistory(1)[0].wordCount` is then absent,
not `5`. -/
theorem c1_chapter_commit_counterexample :
    storedMessage (commitChapter chapterState "chapters/01.md"
      (some "First line")) ≠ some "First line (5 words)" ∧
    historyHeadWordCount (commitChapter chapterState "chapters/01.md"
      (some "First line")) ≠ some (some 5) := by
  exact ⟨by decide, by decide⟩

/-- C1 (amended): `commitChapter` appends the encoded word count only to
the DEFAULT message: with an explicit user message the message is stored
verbatim (for every state, path and message) and, in the spec's scenario,
decodes to no word count; with no message the default
`"Update chapters/01.md (5 words)"` is stored and `getHistory(1)[0]`
decodes `5`. -/
theorem c1_chapter_commit_amended :
    (∀ (st : GitState) (path msg : String), msg ≠ "" →
      storedMessage (commitChapter st path (some msg)) = none ∨
      storedMessage (commitChapter st path (some msg)) = some msg) ∧
    storedMessage (commitChapter chapterState "chapters/01.md"
      (some "First line")) = some "First line" ∧
    historyHeadWordCount (commitChapter chapterState "chapters/01.md"
      (some "First line")) = some none ∧
    storedMessage (commitChapter chapterState "chapters/01.md" none) =
      some "Update chapters/01.md (5 words)" ∧
    historyHeadWordCount (commitChapter chapterState "chapters/01.md" none) =
      some (some 5) := by
  refine ⟨?_, by decide, by decide, by decide, by decide⟩
  intro st path msg hmsg
  have hor : ∀ d : String, orElseStr (some msg) d = msg := by
    intro d
    simp [orElseStr, hmsg]
  simp only [commitChapter, storedMessage, hor]
  cases ha : gitAdd st path with
  | error e =>
    left
    simp [Bind.bind, Except.bind]
  | ok st1 =>
    simp only [Bind.bind, Except.bind]
    unfold gitCommit
    by_cases hs : st1.staged.isEmpty
    · rw [if_pos hs]
      left
      rfl
    · rw [if_neg hs]
      right
      rfl

theorem c1_chapter_commit_amended_witness :
    ("First line" : String) ≠ "" ∧
    (storedMessage (commitChapter chapterState "chapters/01.md"
        (some "First line")) = none ∨
     storedMessage (commitChapter chapterState "chapters/01.md"
        (some "First line")) = some "First line") :=
  ⟨by decide, c1_chapter_commit_amended.1 chapterState "chapters/01.md"
    "First line" (by decide)⟩

/-- C2 (counterexample): on a repository state with a clean working tree,
the very first `backup` call already fails — the underlying
nothing-to-commit error from `commitAll` propagates uncaught and the tag is
never created — so "calling createBackup twice succeeds both times" is
false. -/
theorem c2_backup_clean_counterexample :
    backup cleanState "2026-10-11" none =
      Except.error GitErr.nothingToCommit := by
  decide

/-- C2 (amended): on a clean working tree `backup` fails with the
underlying nothing-to-commit error (no tag is created), and every
successful `backup` derives its tag name as `backup-<date>` — so two calls
on the same date can never produce two distinct tags. -/
theorem c2_backup_amended :
    (∀ (st : GitState) (today : String) (message : Option String),
      st.dirty = [] →
      backup st today message = Except.error GitErr.nothingToCommit) ∧
    (∀ (st st' : GitState) (today tag : String) (message : Option String),
      backup st today message = Except.ok (st', tag) →
      tag = "backup-" ++ today) :=
  ⟨fun st today message h => backup_clean st today message h,
   fun st st' today tag message h => backup_tag_of_ok st today message st' tag h⟩

theorem c2_backup_amended_witness :
    cleanState.dirty = [] ∧
    backup cleanState "2026-10-11" none =
      Except.error GitErr.nothingToCommit ∧
    backup chapterState "2026-10-11" none =
      Except.ok (afterBackup, "backup-2026-10-11") ∧
    "backup-2026-10-11" = "backup-" ++ "2026-10-11" :=
  ⟨rfl, c2_backup_amended.1 cleanState "2026-10-11" none rfl, by decide,
   c2_backup_amended.2 chapterState afterBackup "2026-10-11"
     "backup-2026-10-11" none (by decide)⟩

/-- C3: the codec round-trips — for every count `N` and every message `S`
in which the pattern has no match, appending either encoding suffix
(`" (<N> words)"` or `" (<N> total words)"`) makes
`extractWordCountFromMessage` decode exactly `N`.  (Decoding itself is a
total function returning an `Option`, so a no-match string decodes to
`none` and nothing is thrown.) -/
theorem c3_codec_round_trip (N : Nat) (S : String)
    (h : extractWordCountFromMessage S = none) :
    extractWordCountFromMessage (encodeWordCount S N) = some N ∧
    extractWordCountFromMessage (encodeTotalWordCount S N) = some N := by
  have h' : findCount S.data = none := h
  constructor
  · show findCount (encodeWordCount S N).data = some N
    rw [encodeWordCount_data, findCount_append_sp S.data _ h']
    exact findCount_encode N ['w', 'o', 'r', 'd', 's', ')']
      (by decide) (by decide)
  · show findCount (encodeTotalWordCount S N).data = some N
    rw [encodeTotalWordCount_data, findCount_append_sp S.data _ h']
    exact findCount_encode N
      ['t', 'o', 't', 'a', 'l', ' ', 'w', 'o', 'r', 'd', 's', ')']
      (by decide) (by decide)

theorem c3_codec_round_trip_witness :
    extractWordCountFromMessage "Chapter one draft" = none ∧
    (extractWordCountFromMessage (encodeWordCount "Chapter one draft" 42) =
      some 42 ∧
     extractWordCountFromMessage
       (encodeTotalWordCount "Chapter one draft" 42) = some 42) :=
  ⟨by decide, c3_codec_round_trip 42 "Chapter one draft" (by decide)⟩

/-- C4 (counterexample): in a project whose clean tracked file `a.md` has 5
words and whose only changed file `b.md` has 3, `getTotalWordCount` (the
count `createBackup` encodes) is 3 — the sum over the status-reported files
— not the 8 words of all trackable files; the backup commit message indeed
encodes "(3 total words)". -/
theorem c4_total_counterexample :
    getTotalWordCount mixedState ≠ allTrackableTotal mixedState ∧
    getTotalWordCount mixedState = 3 ∧
    allTrackableTotal mixedState = 8 ∧
    backupMessage (backup mixedState "2026-10-11" none) =
      some "Backup: 2026-10-11 (3 total words)" := by
  exact ⟨by decide, by decide, by decide, by decide⟩

/-- C4 (amended): the word count `createBackup` encodes sums `countWords`
over the current content of the trackable writing files that appear in the
repository status (changed/untracked files) — clean tracked files are not
included. -/
theorem c4_total_amended (st : GitState) :
    getTotalWordCount st =
      (st.dirty.map (fun f =>
        if isWritingFile f then getWordCountFile st f else 0)).sum :=
  getTotalWordCount_eq_sum st

/-- C5: for an existing snapshot tag (resolving as a tag, not shadowed by a
branch of the same name), after a completed `restoreFromBackup` the
previously checked-out branch still exists, still points at its old commit,
and is not current; the current branch is the fresh `restore-<tag>` branch
pointing at the tag's commit. -/
theorem c5_restore_preserves_prior_branch (st : GitState) (tag b : String)
    (cid tc : Nat) (st' : GitState)
    (hhead : st.headBranch = some b)
    (hb : st.branches.lookup b = some cid)
    (htag : st.tags.lookup tag = some tc)
    (hnoshadow : st.branches.lookup tag = none)
    (hok : restoreFromBackup st tag = Except.ok st') :
    st'.branches.lookup b = some cid ∧
    st'.headBranch = some ("restore-" ++ tag) ∧
    st'.headBranch ≠ some b ∧
    st'.branches.lookup ("restore-" ++ tag) = some tc :=
  restore_ok_spec st tag b cid tc st' hhead hb htag hnoshadow hok

theorem c5_restore_preserves_prior_branch_witness :
    restoredState.branches.lookup "main" = some 0 ∧
    restoredState.headBranch = some ("restore-" ++ "backup-2026-10-11") ∧
    restoredState.headBranch ≠ some "main" ∧
    restoredState.branches.lookup ("restore-" ++ "backup-2026-10-11") =
      some 0 :=
  c5_restore_preserves_prior_branch restoreState "backup-2026-10-11" "main"
    0 0 restoredState (by decide) (by decide) (by decide) (by decide)
    (by decide)

/-- C6: a tag name resolving to no branch and no tag makes
`restoreFromBackup` fail with the ref-not-found error from the first
`checkout`; the second command never runs, so no `restore-<tag>` branch is
created by the failed call. -/
theorem c6_restore_missing_tag (st : GitState) (tag : String)
    (h1 : st.branches.lookup tag = none) (h2 : st.tags.lookup tag = none) :
    restoreFromBackup st tag = Except.error GitErr.refNotFound :=
  restore_missing_ref st tag h1 h2

theorem c6_restore_missing_tag_witness :
    restoreFromBackup chapterState "backup-1999-01-01" =
      Except.error GitErr.refNotFound :=
  c6_restore_missing_tag chapterState "backup-1999-01-01" (by decide)
    (by decide)

/-- C7: `getWordCountHistory` walks the window's commits oldest-first
(index `i` of the result corresponds to index `i` of the reversed,
chronological log), keeps every commit (equal lengths — non-decodable
messages are kept with `wordCount = 0`, never skipped), and sets each
entry's `change` to its word count minus the previous entry's word count,
the first entry's change being its own word count. -/
theorem c7_history_deltas (lines : List String) :
    (getWordCountHistory lines).length = lines.length ∧
    ∀ i : Nat, i < lines.length →
      (getWordCountHistory lines).getD i dE =
        { date := lineDate (lines.reverse.getD i "")
          wordCount := wcOfLine (lines.reverse.getD i "")
          change := (wcOfLine (lines.reverse.getD i "") : Int) -
            (if i = 0 then 0
             else (wcOfLine (lines.reverse.getD (i - 1) "") : Int)) } := by
  constructor
  · unfold getWordCountHistory
    rw [historyLoop_length, List.length_reverse]
  · intro i hi
    unfold getWordCountHistory
    rw [historyLoop_getD lines.reverse 0 i
      (by rw [List.length_reverse]; exact hi)]
    norm_num

theorem c7_history_deltas_witness :
    ((2 : Nat) < ([ "c3|2026-01-03 10:00:00 +0000|Third (12 total words)",
        "c2|2026-01-02 10:00:00 +0000|Fix typo",
        "c1|2026-01-01 10:00:00 +0000|Start (5 words)" ] :
        List String).length) ∧
    (getWordCountHistory
        [ "c3|2026-01-03 10:00:00 +0000|Third (12 total words)",
          "c2|2026-01-02 10:00:00 +0000|Fix typo",
          "c1|2026-01-01 10:00:00 +0000|Start (5 words)" ]).getD 2 dE =
      { date := lineDate (([ "c3|2026-01-03 10:00:00 +0000|Third (12 total words)",
            "c2|2026-01-02 10:00:00 +0000|Fix typo",
            "c1|2026-01-01 10:00:00 +0000|Start (5 words)" ] :
            List String).reverse.getD 2 "")
        wordCount := wcOfLine (([ "c3|2026-01-03 10:00:00 +0000|Third (12 total words)",
            "c2|2026-01-02 10:00:00 +0000|Fix typo",
            "c1|2026-01-01 10:00:00 +0000|Start (5 words)" ] :
            List String).reverse.getD 2 "")
        change := (wcOfLine (([ "c3|2026-01-03 10:00:00 +0000|Third (12 total words)",
            "c2|2026-01-02 10:00:00 +0000|Fix typo",
            "c1|2026-01-01 10:00:00 +0000|Start (5 words)" ] :
            List String).reverse.getD 2 "") : Int) -
          (if (2 : Nat) = 0 then 0
           else (wcOfLine (([ "c3|2026-01-03 10:00:00 +0000|Third (12 total words)",
              "c2|2026-01-02 10:00:00 +0000|Fix typo",
              "c1|2026-01-01 10:00:00 +0000|Start (5 words)" ] :
              List String).reverse.getD 1 "") : Int)) } :=
  ⟨by decide,
   (c7_history_deltas
     [ "c3|2026-01-03 10:00:00 +0000|Third (12 total words)",
       "c2|2026-01-02 10:00:00 +0000|Fix typo",
       "c1|2026-01-01 10:00:00 +0000|Start (5 words)" ]).2 2 (by decide)⟩

/-- C8: the progress renderer is a total function on history sequences: an
empty history yields exactly the informative no-history message (which is
not the empty string — in fact no history renders to the empty string),
and an all-zero history renders with a zero-length bar on every row
(`specZeroRender`) instead of crashing on the zero maximum. -/
theorem c8_renderer_total :
    visualizeProgress [] = "No writing history found." ∧
    (∀ h : List WCEntry, visualizeProgress h ≠ "") ∧
    (∀ h : List WCEntry, (∀ e ∈ h, e.wordCount = 0) →
      visualizeProgress h = specZeroRender h) :=
  ⟨rfl, visualizeProgress_ne_empty, visualizeProgress_allZero⟩

theorem c8_renderer_total_witness :
    (∀ e ∈ ([{ date := "2026-01-01", wordCount := 0, change := 0 },
        { date := "2026-01-02", wordCount := 0, change := 0 }] :
        List WCEntry), e.wordCount = 0) ∧
    visualizeProgress
        [{ date := "2026-01-01", wordCount := 0, change := 0 },
         { date := "2026-01-02", wordCount := 0, change := 0 }] =
      specZeroRender
        [{ date := "2026-01-01", wordCount := 0, change := 0 },
         { date := "2026-01-02", wordCount := 0, change := 0 }] :=
  ⟨by decide, c8_renderer_total.2.2
    [{ date := "2026-01-01", wordCount := 0, change := 0 },
     { date := "2026-01-02", wordCount := 0, change := 0 }] (by decide)⟩

/-- C9: `getWordCount`'s counting — split on whitespace runs, drop empty
tokens, count — equals the pure "count the maximal non-whitespace runs"
function on every string (so it is deterministic and non-negative by
construction), and takes the required values on the spec's three examples. -/
theorem c9_count_words :
    (∀ s : String, getWordCount s = countWordsSpec s) ∧
    getWordCount "" = 0 ∧
    getWordCount "   " = 0 ∧
    getWordCount "one two  three" = 3 := by
  refine ⟨?_, by decide, by decide, by decide⟩
  intro s
  exact ((cwAux_splitRuns s.data).1).symm

/-- C10 (counterexample): `commitChapter` on a path that does not exist in
the working tree (and is not a tracked deletion) FAILS — `git add` rejects
the pathspec before any commit happens — contradicting the claim that it
"still succeeds". -/
theorem c10_missing_file_counterexample :
    commitChapter chapterState "ghost.md" none =
      Except.error GitErr.pathspecNotFound := by
  decide

/-- C10 (amended): for a path that cannot be read, the word count used by
the engine is `0` rather than an error: the default chapter-commit message
would encode `"(0 words)"`, and the path contributes `0` to the
project-wide total used by `createBackup`; `commitChapter` itself, however,
fails at the staging step when the path matches nothing. -/
theorem c10_missing_file_amended (st : GitState) (path : String)
    (h1 : st.workFiles.lookup path = none)
    (h2 : st.dirty.contains path = false) :
    getWordCountFile st path = 0 ∧
    encodeWordCount ("Update " ++ path) (getWordCountFile st path) =
      "Update " ++ path ++ " (0 words)" ∧
    getTotalWordCount { st with dirty := path :: st.dirty } =
      getTotalWordCount st ∧
    (∀ message : Option String,
      commitChapter st path message =
        Except.error GitErr.pathspecNotFound) := by
  have hwc : getWordCountFile st path = 0 := by
    unfold getWordCountFile
    rw [h1]
  refine ⟨hwc, ?_, ?_, ?_⟩
  · rw [hwc]
    exact encodeWordCount_zero _
  · rw [getTotalWordCount_eq_sum, getTotalWordCount_eq_sum]
    have hfun : (fun f => if isWritingFile f then
        getWordCountFile { st with dirty := path :: st.dirty } f else 0) =
      (fun f => if isWritingFile f then getWordCountFile st f else 0) := by
      funext f
      rfl
    rw [show ({ st with dirty := path :: st.dirty } : GitState).dirty =
      path :: st.dirty from rfl]
    rw [hfun, List.map_cons, List.sum_cons]
    have hz : (if isWritingFile path then getWordCountFile st path else 0)
        = 0 := by
      by_cases hw : isWritingFile path
      · rw [if_pos hw, hwc]
      · rw [if_neg hw]
    rw [hz]
    omega
  · intro message
    unfold commitChapter gitAdd
    rw [h1, h2]
    rw [if_neg (by simp)]
    rfl

theorem c10_missing_file_amended_witness :
    chapterState.workFiles.lookup "ghost.md" = none ∧
    chapterState.dirty.contains "ghost.md" = false ∧
    (getWordCountFile chapterState "ghost.md" = 0 ∧
     encodeWordCount ("Update " ++ "ghost.md")
       (getWordCountFile chapterState "ghost.md") =
       "Update " ++ "ghost.md" ++ " (0 words)" ∧
     getTotalWordCount
       { chapterState with dirty := "ghost.md" :: chapterState.dirty } =
       getTotalWordCount chapterState ∧
     (∀ message : Option String,
       commitChapter chapterState "ghost.md" message =
         Except.error GitErr.pathspecNotFound)) :=
  ⟨by decide, by decide,
   c10_missing_file_amended chapterState "ghost.md" (by decide) (by decide)⟩
